import Mathlib

/-!
Shallow embedding of the Kodi repository builder (`build.py`, class `Generator`),
covering the incremental catalog reconciliation and packaging engine:
`_should_ignore`, `_create_zip`, `_copy_assets` (at the level of its observable
success/failure), and `_generate_addons_xml` together with the `__init__` driver
that invokes `_generate_md5` only when `_generate_addons_xml` returns True.

Filesystem state and exceptions are made explicit:
  - an XML element appended to the catalog (an `<addon>` manifest root) is an
    `Entry` carrying its tag and its `id`/`version` attributes (ElementTree's
    `get` returns `None` for a missing attribute, hence `Option String`);
  - a candidate package directory is a `Package` recording the directory name,
    the parse outcome of its `addon.xml`, whether the target zip already exists,
    and whether the zip write / asset copy would raise an I/O error;
  - the `try/except` around the per-package body shows up as the `errored`
    field of the per-package outcome: an exception is caught and reported,
    never propagated.
-/

namespace KodiRepo

/-- One XML element as stored in the `addons.xml` catalog or parsed as a
manifest root: its tag and its `id` / `version` attributes
(`ElementTree.Element.get` yields `None` when the attribute is absent). -/
structure Entry where
  tag : String
  id : Option String
  version : Option String
deriving Repr, DecidableEq

/-- Reconcile decision for one package, as described by the Reconciler
contract: `Skip`, `Insert` (no existing entry) or `Replace`. -/
inductive Decision where
  | Skip
  | Insert
  | Replace
deriving Repr, DecidableEq

/-- Outcome of `_create_zip` for one package: early return because the target
zip already exists and force is off, a successful write of the listed archive
entries, or a raised exception. -/
inductive ZipOutcome where
  | skippedExisting
  | written (entries : List (List String))
  | raised
deriving Repr, DecidableEq

/-- Outcome of `ET.parse(addon.xml).getroot()` for one package: the parsed
root element, or a raised parse exception. -/
inductive ParseResult where
  | ok (root : Entry)
  | err
deriving Repr, DecidableEq

/-- One candidate package directory under the release root, with the
filesystem facts the run depends on made explicit.  `files` are the relative
segment paths (below the package directory) of the plain files that
`addon_path.rglob` enumerates; `zipExists` says whether
`zips/<id>/<id>-<version>.zip` is already present; `zipRaises` / `copyRaises`
say whether the zip write body / `_copy_assets` would raise an I/O error. -/
structure Package where
  dirName : String
  isDir : Bool
  hasAddonXml : Bool
  parse : ParseResult
  zipExists : Bool
  zipRaises : Bool
  copyRaises : Bool
  files : List (List String)
deriving Repr, DecidableEq

/-- In-memory state of `_generate_addons_xml` while looping over packages:
the children of the `addons` root element and the `changed` flag. -/
structure RunState where
  catalog : List Entry
  changed : Bool
deriving Repr, DecidableEq

/-- Per-package outcome: the reconcile decision reached (none when
`ET.parse` raised before any decision), the `_create_zip` action taken
(none when it was never invoked), and whether an exception was caught and
reported by the per-package `except` block. -/
structure PkgOutcome where
  decision : Option Decision
  zipAction : Option ZipOutcome
  errored : Bool
deriving Repr, DecidableEq

/-- The `IGNORE_PATTERNS` constant of `build.py`, in declaration order. -/
def IGNORE_PATTERNS : List String :=
  [".git", ".github", ".gitignore", ".DS_Store", "thumbs.db", ".idea",
   "venv", "__pycache__", "*.pyc", "*.pyo"]

/-- Fuel-indexed glob matching of one pattern component against one path
segment, with `*` (any run of characters) and `?` (any one character) as in
`fnmatch`; character classes are not modelled because no configured pattern
uses them.  The fuel argument only makes the recursion structural; it is
always called with enough fuel. -/
def segMatchFuel : Nat → List Char → List Char → Bool
  | 0, _, _ => false
  | _ + 1, [], [] => true
  | f + 1, '*' :: ps, [] => segMatchFuel f ps []
  | f + 1, '*' :: ps, c :: cs =>
      segMatchFuel f ps (c :: cs) || segMatchFuel f ('*' :: ps) cs
  | f + 1, '?' :: ps, _ :: cs => segMatchFuel f ps cs
  | f + 1, p :: ps, c :: cs => (p == c) && segMatchFuel f ps cs
  | _ + 1, _ :: _, [] => false
  | _ + 1, [], _ :: _ => false

/-- Glob match of one pattern component against one path segment. -/
def segMatch (ps cs : List Char) : Bool :=
  segMatchFuel (ps.length + cs.length + 1) ps cs

/-- Splitting a pattern string into its slash-separated components, as
`PurePath(pattern)` does inside `Path.match` (every configured pattern is a
single component, so plain slash splitting is faithful here). -/
def splitSlash : List Char → List (List Char)
  | [] => [[]]
  | c :: cs =>
    match splitSlash cs with
    | [] => [[c]]
    | r :: rs => if c = '/' then [] :: r :: rs else (c :: r) :: rs

/-- `PurePath.match(pattern)` for a relative pattern: the pattern's components
are matched, right-anchored, against the trailing components of the path
(`path.match(pattern)` in `_should_ignore`).  A path is a list of its
segments, as in `path.parts`. -/
def pathMatch (parts : List String) (pattern : String) : Bool :=
  let pp := splitSlash pattern.toList
  decide (pp.length ≤ parts.length) &&
    (List.zip (parts.drop (parts.length - pp.length)) pp).all
      (fun q => segMatch q.2 q.1.toList)

/-- `Generator._should_ignore(path)` (build.py lines 61-65): true when some
pattern of `IGNORE_PATTERNS` occurs among the path's segments
(`pattern in path.parts`) or glob-matches the path (`path.match(pattern)`). -/
def shouldIgnore (parts : List String) : Bool :=
  IGNORE_PATTERNS.any (fun pattern => parts.contains pattern || pathMatch parts pattern)

/-- Archive entries written by the loop body of `_create_zip` (lines 76-80):
every plain file below the addon directory that survives `_should_ignore`
(applied to its full path, release-root segments included), stored under
`file_path.relative_to(addon_path.parent)`, i.e. under the addon directory's
name followed by the file's relative path. -/
def zipEntries (releaseParts : List String) (dirName : String)
    (files : List (List String)) : List (List String) :=
  (files.filter (fun f => !shouldIgnore (releaseParts ++ dirName :: f))).map
    (fun f => dirName :: f)

/-- `Generator._create_zip(addon_path, addon_id, version)` (lines 67-84).
When `addon_id` is `None`, `self.zips_path / addon_id` raises `TypeError`
before anything else.  Otherwise: early return when the target file exists
and force is off; else the zip is written (or the write raises). -/
def createZip (releaseParts : List String) (dirName : String)
    (id version : Option String) (force zipExists zipRaises : Bool)
    (files : List (List String)) : ZipOutcome :=
  match id with
  | none => ZipOutcome.raised
  | some _ =>
    if zipExists && !force then ZipOutcome.skippedExisting
    else if zipRaises then ZipOutcome.raised
    else ZipOutcome.written (zipEntries releaseParts dirName files)

/-- Interpolation of an optional attribute into the XPath query string
`f"./addon[@id='{addon_id}']"`: Python renders `None` as the literal text
`None`. -/
def reprOpt : Option String → String
  | none => "None"
  | some s => s

/-- The XPath predicate `./addon[@id='idStr']`: an element matches when its
tag is `addon` and it carries an `id` attribute equal to `idStr`. -/
def matchPred (idStr : String) (e : Entry) : Bool :=
  e.tag == "addon" && e.id == some idStr

/-- `root.find(f"./addon[@id='{addon_id}']")` (line 141): the first child of
the catalog root matching the XPath predicate. -/
def findAddon (catalog : List Entry) (idStr : String) : Option Entry :=
  catalog.find? (matchPred idStr)

/-- The reconcile decision of lines 141-154: `Skip` when an entry exists with
an equal `version` attribute and force is off (`continue`), `Replace` when an
entry exists otherwise (remove + append), `Insert` when none exists. -/
def reconcile (catalog : List Entry) (m : Entry) (force : Bool) : Decision :=
  match findAddon catalog (reprOpt m.id) with
  | none => Decision.Insert
  | some e =>
    if e.version = m.version ∧ force = false then Decision.Skip
    else Decision.Replace

/-- The body of the per-package loop of `_generate_addons_xml`
(lines 133-160), one package at a time.  On a parse error nothing happens
except the caught/reported exception.  On `Skip` the state is untouched and
`_create_zip` is never invoked.  Otherwise the existing entry (if any) is
removed and the manifest root appended — both before `_create_zip` runs — and
`changed` is set only when neither `_create_zip` nor `_copy_assets` raises. -/
def processPackage (force : Bool) (releaseParts : List String)
    (s : RunState) (p : Package) : RunState × PkgOutcome :=
  match p.parse with
  | ParseResult.err => (s, ⟨none, none, true⟩)
  | ParseResult.ok root =>
    match reconcile s.catalog root force with
    | Decision.Skip => (s, ⟨some Decision.Skip, none, false⟩)
    | d =>
      let cat := s.catalog.eraseP (matchPred (reprOpt root.id)) ++ [root]
      match createZip releaseParts p.dirName root.id root.version force
          p.zipExists p.zipRaises p.files with
      | ZipOutcome.raised => (⟨cat, s.changed⟩, ⟨some d, some ZipOutcome.raised, true⟩)
      | z =>
        if p.copyRaises then (⟨cat, s.changed⟩, ⟨some d, some z, true⟩)
        else (⟨cat, true⟩, ⟨some d, some z, false⟩)

/-- `d.name.startswith(".")`: the directory name begins with a dot. -/
def startsWithDot (s : String) : Bool :=
  match s.toList with
  | [] => false
  | c :: _ => c == '.'

/-- The candidate filter of lines 124-131: an immediate subdirectory of the
release root, not the reserved `zips` output directory, not hidden, and
holding an `addon.xml` at its root (otherwise it is silently skipped). -/
def isCandidate (p : Package) : Bool :=
  p.isDir && p.dirName != "zips" && !startsWithDot p.dirName && p.hasAddonXml

/-- The per-package loop of `_generate_addons_xml`, folded left to right over
the candidate packages, collecting one outcome per candidate. -/
def runLoop (force : Bool) (releaseParts : List String) :
    RunState → List Package → RunState × List PkgOutcome
  | s, [] => (s, [])
  | s, p :: ps =>
    let a := processPackage force releaseParts s p
    let b := runLoop force releaseParts a.1 ps
    (b.1, a.2 :: b.2)

/-- Sort key of line 164: `child.get("id") or ""` — the `id` attribute, with
a missing (and also an empty) attribute collapsing to the empty string. -/
def sortKey (e : Entry) : String :=
  (e.id.getD "")

/-- Ordinal (code-point lexicographic) comparison of character lists, the
order Python uses to compare the string sort keys. -/
def charListLe : List Char → List Char → Bool
  | [], _ => true
  | _ :: _, [] => false
  | a :: as, b :: bs => if a = b then charListLe as bs else decide (a < b)

/-- The sort order of line 164: comparison of the sort keys under ordinal
string order. -/
def addonLe (a b : Entry) : Prop :=
  charListLe (sortKey a).toList (sortKey b).toList = true

instance : DecidableRel addonLe := fun _ _ =>
  inferInstanceAs (Decidable (_ = true))

theorem charListLe_total : ∀ as bs : List Char,
    charListLe as bs = true ∨ charListLe bs as = true
  | [], [] => Or.inl rfl
  | [], _ :: _ => Or.inl rfl
  | _ :: _, [] => Or.inr rfl
  | a :: as, b :: bs => by
    by_cases h : a = b
    · subst h
      simpa [charListLe] using charListLe_total as bs
    · rcases lt_or_gt_of_ne h with hl | hl
      · exact Or.inl (by simp [charListLe, h, hl])
      · exact Or.inr (by simp [charListLe, Ne.symm h, hl])

theorem charListLe_trans : ∀ as bs cs : List Char,
    charListLe as bs = true → charListLe bs cs = true → charListLe as cs = true
  | [], _, _ => fun _ _ => rfl
  | _ :: _, [], _ => fun h _ => by simp [charListLe] at h
  | _ :: _, _ :: _, [] => fun _ h => by simp [charListLe] at h
  | a :: as, b :: bs, c :: cs => by
    simp only [charListLe]
    by_cases hab : a = b <;> by_cases hbc : b = c
    · subst hab; subst hbc
      simp only [if_pos rfl]
      exact charListLe_trans as bs cs
    · subst hab
      simp only [if_pos rfl, if_neg hbc]
      exact fun _ h2 => h2
    · subst hbc
      simp only [if_neg hab, if_pos rfl]
      exact fun h1 _ => h1
    · simp only [if_neg hab, if_neg hbc, decide_eq_true_eq]
      intro h1 h2
      have hac : a < c := lt_trans h1 h2
      rw [if_neg (ne_of_lt hac)]
      simp [hac]

instance : IsTotal Entry addonLe :=
  ⟨fun a b => charListLe_total (sortKey a).toList (sortKey b).toList⟩

instance : IsTrans Entry addonLe :=
  ⟨fun a b c => charListLe_trans (sortKey a).toList (sortKey b).toList (sortKey c).toList⟩

/-- `root[:] = sorted(root, key=lambda child: child.get("id") or "")`
(line 164).  Python's `sorted` is a stable sort; a stable sort's output is
uniquely determined by the order, so the stable `insertionSort` computes the
same list. -/
def sortAddons (l : List Entry) : List Entry :=
  List.insertionSort addonLe l

/-- Observable result of one `Generator` run over one release directory:
the final in-memory catalog, the per-candidate outcomes, the persisted
catalog (`None` when `addons.xml` was not rewritten, lines 162-170), and
whether `_generate_md5` rewrote `addons.xml.md5` (`__init__` lines 48-49:
only when `_generate_addons_xml` returned True). -/
structure RunResult where
  finalCatalog : List Entry
  outcomes : List PkgOutcome
  persisted : Option (List Entry)
  md5Written : Bool
deriving Repr, DecidableEq

/-- One full `Generator` run over one release directory: load the catalog
(`initCatalog` are the children of the loaded or freshly created `addons`
root), loop over the candidate packages, and, only if `changed` was set,
sort the catalog by id-key, write it and rewrite the md5 sidecar. -/
def generatorRun (force : Bool) (releaseParts : List String)
    (initCatalog : List Entry) (ps : List Package) : RunResult :=
  let r := runLoop force releaseParts ⟨initCatalog, false⟩ (ps.filter isCandidate)
  if r.1.changed then
    ⟨r.1.catalog, r.2, some (sortAddons r.1.catalog), true⟩
  else
    ⟨r.1.catalog, r.2, none, false⟩

/-! Helper lemmas about one loop iteration and the whole loop. -/

theorem processPackage_parseErr (force : Bool) (rp : List String) (s : RunState)
    (p : Package) (h : p.parse = ParseResult.err) :
    processPackage force rp s p = (s, ⟨none, none, true⟩) := by
  simp [processPackage, h]

theorem processPackage_skip (force : Bool) (rp : List String) (s : RunState)
    (p : Package) (root : Entry) (h : p.parse = ParseResult.ok root)
    (hd : reconcile s.catalog root force = Decision.Skip) :
    processPackage force rp s p = (s, ⟨some Decision.Skip, none, false⟩) := by
  simp [processPackage, h, hd]

theorem processPackage_update_catalog (force : Bool) (rp : List String) (s : RunState)
    (p : Package) (root : Entry) (h : p.parse = ParseResult.ok root)
    (hd : reconcile s.catalog root force ≠ Decision.Skip) :
    (processPackage force rp s p).1.catalog =
      s.catalog.eraseP (matchPred (reprOpt root.id)) ++ [root] := by
  cases hrec : reconcile s.catalog root force with
  | Skip => exact absurd hrec hd
  | Insert =>
    simp only [processPackage, h, hrec]
    cases hz : createZip rp p.dirName root.id root.version force p.zipExists p.zipRaises p.files <;>
      by_cases hc : p.copyRaises = true <;> simp [hz, hc]
  | Replace =>
    simp only [processPackage, h, hrec]
    cases hz : createZip rp p.dirName root.id root.version force p.zipExists p.zipRaises p.files <;>
      by_cases hc : p.copyRaises = true <;> simp [hz, hc]

theorem processPackage_errored_changed (force : Bool) (rp : List String) (s : RunState)
    (p : Package) (h : (processPackage force rp s p).2.errored = true) :
    (processPackage force rp s p).1.changed = s.changed := by
  cases hp : p.parse with
  | err => simp [processPackage, hp]
  | ok root =>
    cases hrec : reconcile s.catalog root force with
    | Skip => simp [processPackage, hp, hrec]
    | Insert =>
      simp only [processPackage, hp, hrec] at h ⊢
      cases hz : createZip rp p.dirName root.id root.version force p.zipExists p.zipRaises p.files <;>
        by_cases hc : p.copyRaises = true <;> simp [hz, hc] at h ⊢
    | Replace =>
      simp only [processPackage, hp, hrec] at h ⊢
      cases hz : createZip rp p.dirName root.id root.version force p.zipExists p.zipRaises p.files <;>
        by_cases hc : p.copyRaises = true <;> simp [hz, hc] at h ⊢

theorem processPackage_inert (force : Bool) (rp : List String) (s : RunState)
    (p : Package)
    (h : (processPackage force rp s p).2.decision = none ∨
         (processPackage force rp s p).2.decision = some Decision.Skip) :
    (processPackage force rp s p).1 = s := by
  cases hp : p.parse with
  | err => simp [processPackage, hp]
  | ok root =>
    cases hrec : reconcile s.catalog root force with
    | Skip => simp [processPackage, hp, hrec]
    | Insert =>
      simp only [processPackage, hp, hrec] at h
      cases hz : createZip rp p.dirName root.id root.version force p.zipExists p.zipRaises p.files <;>
        by_cases hc : p.copyRaises = true <;> simp [hz, hc] at h
    | Replace =>
      simp only [processPackage, hp, hrec] at h
      cases hz : createZip rp p.dirName root.id root.version force p.zipExists p.zipRaises p.files <;>
        by_cases hc : p.copyRaises = true <;> simp [hz, hc] at h

theorem runLoop_append (force : Bool) (rp : List String) (l1 l2 : List Package)
    (s : RunState) :
    runLoop force rp s (l1 ++ l2) =
      ((runLoop force rp (runLoop force rp s l1).1 l2).1,
        (runLoop force rp s l1).2 ++ (runLoop force rp (runLoop force rp s l1).1 l2).2) := by
  induction l1 generalizing s with
  | nil => simp [runLoop]
  | cons p ps ih => simp [runLoop, ih]

theorem runLoop_length (force : Bool) (rp : List String) (s : RunState)
    (ps : List Package) : (runLoop force rp s ps).2.length = ps.length := by
  induction ps generalizing s with
  | nil => simp [runLoop]
  | cons p ps ih => simp [runLoop, ih]

theorem runLoop_inert (force : Bool) (rp : List String) (s : RunState)
    (ps : List Package)
    (h : ∀ o ∈ (runLoop force rp s ps).2,
      o.decision = none ∨ o.decision = some Decision.Skip) :
    (runLoop force rp s ps).1 = s := by
  induction ps generalizing s with
  | nil => simp [runLoop]
  | cons p ps ih =>
    simp only [runLoop] at h ⊢
    have h1 := h (processPackage force rp s p).2 (by simp)
    have hs := processPackage_inert force rp s p h1
    rw [hs] at h ⊢
    exact ih s (fun o ho => h o (by simp [ho]))

/-- Well-formed catalog: every child of the `addons` root is an `addon`
element carrying an `id` attribute, and no two children share an `id`. -/
def WFCatalog (cat : List Entry) : Prop :=
  (∀ e ∈ cat, e.tag = "addon" ∧ e.id.isSome = true) ∧
    cat.Pairwise (fun a b => a.id ≠ b.id)

theorem no_match_after_eraseP : ∀ (cat : List Entry) (i : String),
    (∀ e ∈ cat, e.tag = "addon") → cat.Pairwise (fun a b => a.id ≠ b.id) →
    ∀ e ∈ cat.eraseP (matchPred i), e.id ≠ some i
  | [], _, _, _ => by simp
  | x :: xs, i, htag, hpw => by
    by_cases hm : matchPred i x = true
    · rw [List.eraseP_cons_of_pos hm]
      have hx : x.id = some i := by
        simp only [matchPred, Bool.and_eq_true, beq_iff_eq] at hm
        exact hm.2
      intro e he
      have := (List.pairwise_cons.mp hpw).1 e he
      rw [hx] at this
      exact fun hc => this (hc ▸ rfl)
    · rw [List.eraseP_cons_of_neg hm]
      intro e he
      rcases List.mem_cons.mp he with rfl | he'
      · intro hc
        apply hm
        simp only [matchPred, Bool.and_eq_true, beq_iff_eq]
        exact ⟨htag e (List.mem_cons_self _ _), hc⟩
      · exact no_match_after_eraseP xs i
          (fun e' he'' => htag e' (List.mem_cons_of_mem _ he''))
          (List.pairwise_cons.mp hpw).2 e he'

theorem WFCatalog_update (cat : List Entry) (root : Entry)
    (h : WFCatalog cat) (htag : root.tag = "addon") (hid : root.id.isSome = true) :
    WFCatalog (cat.eraseP (matchPred (reprOpt root.id)) ++ [root]) := by
  obtain ⟨hattrs, hpw⟩ := h
  have hsub := List.eraseP_sublist (p := matchPred (reprOpt root.id)) cat
  constructor
  · intro e he
    rcases List.mem_append.mp he with he' | he'
    · exact hattrs e (hsub.mem he')
    · rcases List.mem_singleton.mp he' with rfl
      exact ⟨htag, hid⟩
  · rw [List.pairwise_append]
    refine ⟨hpw.sublist hsub, List.pairwise_singleton _ _, ?_⟩
    intro a ha b hb
    rcases List.mem_singleton.mp hb with rfl
    obtain ⟨i0, hi0⟩ := Option.isSome_iff_exists.mp hid
    have hrepr : reprOpt b.id = i0 := by rw [hi0]; rfl
    rw [hrepr] at ha
    have := no_match_after_eraseP cat i0 (fun e he => (hattrs e he).1) hpw a ha
    rw [hi0]
    exact this

theorem WFCatalog_processPackage (force : Bool) (rp : List String) (s : RunState)
    (p : Package) (h : WFCatalog s.catalog)
    (hp : ∀ root, p.parse = ParseResult.ok root →
      root.tag = "addon" ∧ root.id.isSome = true) :
    WFCatalog (processPackage force rp s p).1.catalog := by
  cases hparse : p.parse with
  | err => rw [processPackage_parseErr force rp s p hparse]; exact h
  | ok root =>
    by_cases hd : reconcile s.catalog root force = Decision.Skip
    · rw [processPackage_skip force rp s p root hparse hd]; exact h
    · rw [processPackage_update_catalog force rp s p root hparse hd]
      exact WFCatalog_update s.catalog root h (hp root hparse).1 (hp root hparse).2

theorem WFCatalog_runLoop (force : Bool) (rp : List String) (s : RunState)
    (ps : List Package) (h : WFCatalog s.catalog)
    (hps : ∀ p ∈ ps, ∀ root, p.parse = ParseResult.ok root →
      root.tag = "addon" ∧ root.id.isSome = true) :
    WFCatalog (runLoop force rp s ps).1.catalog := by
  induction ps generalizing s with
  | nil => exact h
  | cons p ps ih =>
    simp only [runLoop]
    exact ih (processPackage force rp s p).1
      (WFCatalog_processPackage force rp s p h
        (hps p (List.mem_cons_self _ _)))
      (fun q hq => hps q (List.mem_cons_of_mem _ hq))

theorem mem_catalog_processPackage (force : Bool) (rp : List String) (s : RunState)
    (p : Package) (x : Entry) (hx : x ∈ s.catalog)
    (hp : ∀ root, p.parse = ParseResult.ok root →
      matchPred (reprOpt root.id) x = false) :
    x ∈ (processPackage force rp s p).1.catalog := by
  cases hparse : p.parse with
  | err => rw [processPackage_parseErr force rp s p hparse]; exact hx
  | ok root =>
    by_cases hd : reconcile s.catalog root force = Decision.Skip
    · rw [processPackage_skip force rp s p root hparse hd]; exact hx
    · rw [processPackage_update_catalog force rp s p root hparse hd]
      apply List.mem_append_left
      exact (List.mem_eraseP_of_neg (by simp [hp root hparse])).mpr hx

theorem mem_catalog_runLoop (force : Bool) (rp : List String) (s : RunState)
    (ps : List Package) (x : Entry) (hx : x ∈ s.catalog)
    (hps : ∀ p ∈ ps, ∀ root, p.parse = ParseResult.ok root →
      matchPred (reprOpt root.id) x = false) :
    x ∈ (runLoop force rp s ps).1.catalog := by
  induction ps generalizing s with
  | nil => exact hx
  | cons p ps ih =>
    simp only [runLoop]
    exact ih (processPackage force rp s p).1
      (mem_catalog_processPackage force rp s p x hx
        (hps p (List.mem_cons_self _ _)))
      (fun q hq => hps q (List.mem_cons_of_mem _ hq))

theorem generatorRun_finalCatalog (force : Bool) (rp : List String)
    (init : List Entry) (ps : List Package) :
    (generatorRun force rp init ps).finalCatalog =
      (runLoop force rp ⟨init, false⟩ (ps.filter isCandidate)).1.catalog := by
  simp only [generatorRun]
  split <;> rfl

theorem generatorRun_outcomes (force : Bool) (rp : List String)
    (init : List Entry) (ps : List Package) :
    (generatorRun force rp init ps).outcomes =
      (runLoop force rp ⟨init, false⟩ (ps.filter isCandidate)).2 := by
  simp only [generatorRun]
  split <;> rfl

theorem generatorRun_persisted_some (force : Bool) (rp : List String)
    (init : List Entry) (ps : List Package) (l : List Entry)
    (h : (generatorRun force rp init ps).persisted = some l) :
    l = sortAddons
      (runLoop force rp ⟨init, false⟩ (ps.filter isCandidate)).1.catalog := by
  simp only [generatorRun] at h
  split at h
  · simpa using h.symm
  · simp at h

/-! Claim theorems. -/

/-- C1: for every catalog, manifest and force flag, the reconcile decision is
`Insert` exactly when no catalog entry with the manifest's id exists (under
the code's lookup `./addon[@id='...']`), `Replace` exactly when such an entry
exists and its `version` attribute differs from the manifest's or force is
set, and `Skip` otherwise; and on `Skip` the loop body leaves the state
untouched and never invokes `_create_zip` (no archive write, no catalog
mutation). -/
theorem reconcile_decision_spec (catalog : List Entry) (m : Entry) (force : Bool) :
    (reconcile catalog m force = Decision.Insert ↔
      findAddon catalog (reprOpt m.id) = none) ∧
    (reconcile catalog m force = Decision.Replace ↔
      ∃ e, findAddon catalog (reprOpt m.id) = some e ∧
        (e.version ≠ m.version ∨ force = true)) ∧
    (reconcile catalog m force = Decision.Skip ↔
      ∃ e, findAddon catalog (reprOpt m.id) = some e ∧
        e.version = m.version ∧ force = false) ∧
    (∀ (rp : List String) (s : RunState) (p : Package) (root : Entry),
      p.parse = ParseResult.ok root →
      reconcile s.catalog root force = Decision.Skip →
      processPackage force rp s p = (s, ⟨some Decision.Skip, none, false⟩)) := by
  refine ⟨?_, ?_, ?_, ?_⟩
  · unfold reconcile
    cases h : findAddon catalog (reprOpt m.id) with
    | none => simp
    | some e => cases force <;> by_cases hv : e.version = m.version <;> simp [hv]
  · unfold reconcile
    cases h : findAddon catalog (reprOpt m.id) with
    | none => simp
    | some e => cases force <;> by_cases hv : e.version = m.version <;> simp [hv]
  · unfold reconcile
    cases h : findAddon catalog (reprOpt m.id) with
    | none => simp
    | some e => cases force <;> by_cases hv : e.version = m.version <;> simp [hv]
  · intro rp s p root hp hd
    exact processPackage_skip force rp s p root hp hd

/-- C1 witness: a package whose manifest matches the existing entry's version
with force off is skipped with no state change and no zip action. -/
theorem reconcile_decision_spec_witness :
    processPackage false []
      ⟨[⟨"addon", some "x", some "1"⟩], false⟩
      ⟨"x", true, true, ParseResult.ok ⟨"addon", some "x", some "1"⟩,
        false, false, false, []⟩ =
    (⟨[⟨"addon", some "x", some "1"⟩], false⟩,
      ⟨some Decision.Skip, none, false⟩) :=
  (reconcile_decision_spec [⟨"addon", some "x", some "1"⟩]
      ⟨"addon", some "x", some "1"⟩ false).2.2.2
    [] ⟨[⟨"addon", some "x", some "1"⟩], false⟩
    ⟨"x", true, true, ParseResult.ok ⟨"addon", some "x", some "1"⟩,
      false, false, false, []⟩
    ⟨"addon", some "x", some "1"⟩ rfl (by decide)

/-- C4 counterexample: with package directory `foo` whose manifest id is
`bar`, the archive entry is rooted at the directory name `foo`, not at the
manifest's id `bar` — the claim as stated fails. -/
theorem zip_root_dirname_cex :
    createZip ["release"] "foo" (some "bar") (some "1.0") false false false
        [["addon.xml"]] =
      ZipOutcome.written [["foo", "addon.xml"]] ∧
    (["foo", "addon.xml"] : List String).head? ≠ some "bar" := by
  decide

/-- C4 amended: every file written into a package archive has its
archive-internal path rooted at the package directory's name (which equals
the manifest id only under the conventional id-named-directory layout),
never at the release root's absolute path. -/
theorem zip_entries_rooted (rp : List String) (dirName : String)
    (id version : Option String) (force zipExists zipRaises : Bool)
    (files entries : List (List String))
    (h : createZip rp dirName id version force zipExists zipRaises files =
      ZipOutcome.written entries) :
    ∀ e ∈ entries, ∃ rest, rest ∈ files ∧ e = dirName :: rest := by
  cases id with
  | none => simp [createZip] at h
  | some i =>
    simp only [createZip] at h
    split at h
    · simp at h
    · split at h
      · simp at h
      · injection h with h'
        subst h'
        intro e he
        simp only [zipEntries, List.mem_map] at he
        obtain ⟨f, hf, rfl⟩ := he
        exact ⟨f, (List.mem_filter.mp hf).1, rfl⟩

/-- C4 witness: the single entry of the concrete archive above is rooted at
the directory name. -/
theorem zip_entries_rooted_witness :
    ∃ rest, rest ∈ [["addon.xml"]] ∧
      (["foo", "addon.xml"] : List String) = "foo" :: rest :=
  zip_entries_rooted ["release"] "foo" (some "bar") (some "1.0") false false
    false [["addon.xml"]] [["foo", "addon.xml"]] (by decide)
    ["foo", "addon.xml"] (by decide)

/-- C5: with force set, the reconciler yields `Replace` for every manifest
that has an existing catalog entry — even one with an equal version string —
and `_create_zip` rewrites the archive even when the target file already
exists (as long as the write itself does not fail). -/
theorem force_replace_rewrite :
    (∀ (catalog : List Entry) (m e : Entry),
      findAddon catalog (reprOpt m.id) = some e →
      reconcile catalog m true = Decision.Replace) ∧
    (∀ (rp : List String) (dirName i : String) (version : Option String)
      (zipExists : Bool) (files : List (List String)),
      createZip rp dirName (some i) version true zipExists false files =
        ZipOutcome.written (zipEntries rp dirName files)) := by
  constructor
  · intro catalog m e h
    simp [reconcile, h]
  · intro rp dn i ver ze files
    simp [createZip]

/-- C5 witness: equal version plus force still replaces, and the zip is
rewritten over an existing file. -/
theorem force_replace_rewrite_witness :
    reconcile [⟨"addon", some "x", some "1"⟩] ⟨"addon", some "x", some "1"⟩
        true = Decision.Replace ∧
    createZip ["r"] "x" (some "x") (some "1") true true false [["f"]] =
      ZipOutcome.written [["x", "f"]] :=
  ⟨force_replace_rewrite.1 [⟨"addon", some "x", some "1"⟩]
      ⟨"addon", some "x", some "1"⟩ ⟨"addon", some "x", some "1"⟩ (by decide),
    (force_replace_rewrite.2 ["r"] "x" "x" (some "1") true [["f"]]).trans
      (by decide)⟩

/-- C7: when the target archive file for a given id and version already
exists and force is off, `_create_zip` returns before opening any file for
writing, leaving the existing archive untouched — regardless of whether the
write would have failed. -/
theorem existing_zip_idempotent_skip (rp : List String) (dirName i : String)
    (version : Option String) (zipRaises : Bool) (files : List (List String)) :
    createZip rp dirName (some i) version false true zipRaises files =
      ZipOutcome.skippedExisting := by
  simp [createZip]

/-- C8: `_should_ignore` returns true exactly when some configured pattern
equals one of the path's segments (at any nesting depth) or glob-matches the
path (right-anchored `Path.match` semantics); in particular any path with a
`.git` segment is ignored.  It is a total function, hence has no error
conditions. -/
theorem shouldIgnore_spec (parts : List String) :
    (shouldIgnore parts = true ↔
      ∃ pattern ∈ IGNORE_PATTERNS,
        pattern ∈ parts ∨ pathMatch parts pattern = true) ∧
    (".git" ∈ parts → shouldIgnore parts = true) := by
  have hiff : shouldIgnore parts = true ↔
      ∃ pattern ∈ IGNORE_PATTERNS,
        pattern ∈ parts ∨ pathMatch parts pattern = true := by
    simp [shouldIgnore, List.any_eq_true]
  exact ⟨hiff, fun h => hiff.mpr ⟨".git", by decide, Or.inl h⟩⟩

/-- C8 witness: a path with a nested `.git` segment is ignored. -/
theorem shouldIgnore_spec_witness :
    shouldIgnore ["a", ".git", "b"] = true :=
  (shouldIgnore_spec ["a", ".git", "b"]).2 (by decide)

/-- C6: a run that performs zero `Insert`/`Replace` decisions never sets the
`changed` flag, so `addons.xml` is not rewritten and `_generate_md5` is never
invoked — catalog file and checksum sidecar stay untouched, and even the
in-memory catalog equals the loaded one. -/
theorem no_change_no_write (force : Bool) (rp : List String)
    (init : List Entry) (ps : List Package)
    (h : ∀ o ∈ (generatorRun force rp init ps).outcomes,
      o.decision ≠ some Decision.Insert ∧ o.decision ≠ some Decision.Replace) :
    (generatorRun force rp init ps).persisted = none ∧
    (generatorRun force rp init ps).md5Written = false ∧
    (generatorRun force rp init ps).finalCatalog = init := by
  rw [generatorRun_outcomes] at h
  have h' : ∀ o ∈ (runLoop force rp ⟨init, false⟩ (ps.filter isCandidate)).2,
      o.decision = none ∨ o.decision = some Decision.Skip := by
    intro o ho
    have hne := h o ho
    cases hd : o.decision with
    | none => exact Or.inl rfl
    | some d =>
      cases d with
      | Skip => exact Or.inr rfl
      | Insert => exact absurd hd hne.1
      | Replace => exact absurd hd hne.2
  have hin := runLoop_inert force rp ⟨init, false⟩ (ps.filter isCandidate) h'
  simp only [generatorRun, hin]
  simp

/-- C6 witness: a run whose single candidate is skipped (same version, no
force) leaves catalog, checksum and in-memory state untouched. -/
theorem no_change_no_write_witness :
    (generatorRun false ["r"] [⟨"addon", some "a", some "1"⟩]
      [⟨"a", true, true, ParseResult.ok ⟨"addon", some "a", some "1"⟩,
        true, false, false, []⟩]).persisted = none ∧
    (generatorRun false ["r"] [⟨"addon", some "a", some "1"⟩]
      [⟨"a", true, true, ParseResult.ok ⟨"addon", some "a", some "1"⟩,
        true, false, false, []⟩]).md5Written = false ∧
    (generatorRun false ["r"] [⟨"addon", some "a", some "1"⟩]
      [⟨"a", true, true, ParseResult.ok ⟨"addon", some "a", some "1"⟩,
        true, false, false, []⟩]).finalCatalog =
      [⟨"addon", some "a", some "1"⟩] :=
  no_change_no_write false ["r"] [⟨"addon", some "a", some "1"⟩]
    [⟨"a", true, true, ParseResult.ok ⟨"addon", some "a", some "1"⟩,
      true, false, false, []⟩] (by decide)

/-- C3 counterexample: a package whose manifest has an `id` but no `version`
attribute is not skipped and no error is reported: the reconcile decision is
`Insert`, its versionless entry is merged into the catalog, the archive is
written (named `foo-None.zip` on disk) and `changed` is set. -/
theorem missing_version_no_error_cex :
    processPackage false ["r"] ⟨[], false⟩
      ⟨"foo", true, true, ParseResult.ok ⟨"addon", some "foo", none⟩,
        false, false, false, [["addon.xml"]]⟩ =
    (⟨[⟨"addon", some "foo", none⟩], true⟩,
      ⟨some Decision.Insert,
        some (ZipOutcome.written [["foo", "addon.xml"]]), false⟩) := by
  decide

/-- C3 amended: a manifest missing only `version` is processed like any
other package (no reported error, literal `None` stands in for the version);
a manifest missing `id` does fail for that package only — the `TypeError`
raised by `zips_path / None` inside `_create_zip` is caught and reported,
after the entry was already appended and the existing `id='None'` lookup
entry (if any) removed — and the loop still yields one outcome for every
package, so all other packages in the run are processed. -/
theorem missing_attribute_handling :
    (∀ (force : Bool) (rp : List String) (s : RunState) (p : Package)
        (root : Entry) (i : String),
      p.parse = ParseResult.ok root → root.version = none → root.id = some i →
      p.zipRaises = false → p.copyRaises = false →
      (processPackage force rp s p).2.errored = false) ∧
    (∀ (force : Bool) (rp : List String) (s : RunState) (p : Package)
        (root : Entry),
      p.parse = ParseResult.ok root → root.id = none →
      reconcile s.catalog root force ≠ Decision.Skip →
      (processPackage force rp s p).2.errored = true ∧
      (processPackage force rp s p).2.zipAction = some ZipOutcome.raised ∧
      (processPackage force rp s p).1.catalog =
        s.catalog.eraseP (matchPred "None") ++ [root] ∧
      (processPackage force rp s p).1.changed = s.changed) ∧
    (∀ (force : Bool) (rp : List String) (s : RunState) (ps : List Package),
      (runLoop force rp s ps).2.length = ps.length) := by
  refine ⟨?_, ?_, runLoop_length⟩
  · intro force rp s p root i hp hv hid hzr hcr
    cases hrec : reconcile s.catalog root force with
    | Skip => simp [processPackage, hp, hrec]
    | Insert =>
      by_cases hze : (p.zipExists && !force) = true <;>
        simp [processPackage, hp, hrec, createZip, hid, hze, hzr, hcr]
    | Replace =>
      by_cases hze : (p.zipExists && !force) = true <;>
        simp [processPackage, hp, hrec, createZip, hid, hze, hzr, hcr]
  · intro force rp s p root hp hid hd
    cases hrec : reconcile s.catalog root force with
    | Skip => exact absurd hrec hd
    | Insert => simp [processPackage, hp, hrec, createZip, hid, reprOpt]
    | Replace => simp [processPackage, hp, hrec, createZip, hid, reprOpt]

/-- C3 witness: a concrete versionless package reports no error, while a
concrete id-less package reports one. -/
theorem missing_attribute_handling_witness :
    (processPackage false ["r"] ⟨[], false⟩
      ⟨"foo", true, true, ParseResult.ok ⟨"addon", some "foo", none⟩,
        false, false, false, []⟩).2.errored = false ∧
    (processPackage false ["r"] ⟨[], false⟩
      ⟨"bar", true, true, ParseResult.ok ⟨"addon", none, some "1"⟩,
        false, false, false, []⟩).2.errored = true :=
  ⟨missing_attribute_handling.1 false ["r"] ⟨[], false⟩
      ⟨"foo", true, true, ParseResult.ok ⟨"addon", some "foo", none⟩,
        false, false, false, []⟩
      ⟨"addon", some "foo", none⟩ "foo" rfl rfl rfl rfl rfl,
    (missing_attribute_handling.2.1 false ["r"] ⟨[], false⟩
      ⟨"bar", true, true, ParseResult.ok ⟨"addon", none, some "1"⟩,
        false, false, false, []⟩
      ⟨"addon", none, some "1"⟩ rfl rfl (by decide)).1⟩

/-- C2 counterexample: when the loaded catalog already holds two entries with
the same id, a run that performs one `Insert` persists both duplicates — the
code only removes the first `find` match per processed manifest and never
deduplicates the rest, so "at most one entry per id" fails for this run. -/
theorem persisted_duplicate_id_cex :
    (generatorRun false ["r"]
      [⟨"addon", some "a", some "1"⟩, ⟨"addon", some "a", some "1"⟩]
      [⟨"b", true, true, ParseResult.ok ⟨"addon", some "b", some "1"⟩,
        false, false, false, []⟩]).persisted =
      some [⟨"addon", some "a", some "1"⟩, ⟨"addon", some "a", some "1"⟩,
        ⟨"addon", some "b", some "1"⟩] ∧
    ¬ ([⟨"addon", some "a", some "1"⟩, ⟨"addon", some "a", some "1"⟩,
        ⟨"addon", some "b", some "1"⟩] : List Entry).Pairwise
      (fun a b => a.id ≠ b.id) := by
  decide

/-- C2 amended: any catalog persisted by a run is sorted by the id sort key
under ordinal string comparison — unconditionally, duplicate or ill-formed
loaded catalogs included; and provided the loaded catalog's entries are
addon-tagged, carry ids and have pairwise distinct ids, and every processed
manifest root is an addon-tagged element with an id, the persisted catalog
additionally has pairwise distinct ids and every entry still carries an
id (uniqueness is preserved, not established). -/
theorem persisted_sorted_unique (force : Bool) (rp : List String)
    (init : List Entry) (ps : List Package) (l : List Entry)
    (hl : (generatorRun force rp init ps).persisted = some l) :
    l.Pairwise addonLe ∧
    ((∀ e ∈ init, e.tag = "addon" ∧ e.id.isSome = true) →
      init.Pairwise (fun a b => a.id ≠ b.id) →
      (∀ p ∈ ps, ∀ root, p.parse = ParseResult.ok root →
        root.tag = "addon" ∧ root.id.isSome = true) →
      l.Pairwise (fun a b => a.id ≠ b.id) ∧
      ∀ e ∈ l, e.id.isSome = true) := by
  have hcat := generatorRun_persisted_some force rp init ps l hl
  subst hcat
  have hperm := List.perm_insertionSort addonLe
    (runLoop force rp ⟨init, false⟩ (ps.filter isCandidate)).1.catalog
  refine ⟨List.sorted_insertionSort addonLe _, ?_⟩
  intro h1 h2 h3
  have hWF : WFCatalog
      (runLoop force rp ⟨init, false⟩ (ps.filter isCandidate)).1.catalog :=
    WFCatalog_runLoop force rp ⟨init, false⟩ (ps.filter isCandidate) ⟨h1, h2⟩
      (fun p hp => h3 p (List.mem_of_mem_filter hp))
  refine ⟨?_, ?_⟩
  · exact (List.Perm.pairwise_iff (fun h => fun e => h e.symm) hperm).mpr hWF.2
  · intro e he
    exact (hWF.1 e (hperm.mem_iff.mp he)).2

/-- C2 witness: a well-formed catalog plus one inserted package persists a
sorted, duplicate-free catalog. -/
theorem persisted_sorted_unique_witness :
    ([⟨"addon", some "a", some "1"⟩, ⟨"addon", some "b", some "1"⟩] :
      List Entry).Pairwise addonLe ∧
    ([⟨"addon", some "a", some "1"⟩, ⟨"addon", some "b", some "1"⟩] :
      List Entry).Pairwise (fun a b => a.id ≠ b.id) := by
  have h := persisted_sorted_unique false ["r"] [⟨"addon", some "a", some "1"⟩]
    [⟨"b", true, true, ParseResult.ok ⟨"addon", some "b", some "1"⟩,
      false, false, false, []⟩]
    [⟨"addon", some "a", some "1"⟩, ⟨"addon", some "b", some "1"⟩]
    (by decide)
  exact ⟨h.1, (h.2 (by decide) (by decide)
    (by
      intro p hp root hparse
      rcases List.mem_singleton.mp hp with rfl
      cases hparse
      exact ⟨rfl, rfl⟩)).1⟩

/-- C9: the loop yields exactly one outcome per candidate package and
composes over any decomposition of the package list, so processing always
continues past a failing package; and for any single package, a caught and
reported error occurs exactly when the manifest parse raised, or the
package was not skipped and either the id was missing (the `TypeError`
path), the zip write raised (and was actually attempted), or the asset copy
raised. -/
theorem package_errors_isolated (force : Bool) (rp : List String)
    (s : RunState) (pre post : List Package) (p : Package) :
    runLoop force rp s (pre ++ p :: post) =
      ((runLoop force rp
          (processPackage force rp (runLoop force rp s pre).1 p).1 post).1,
        (runLoop force rp s pre).2 ++
          (processPackage force rp (runLoop force rp s pre).1 p).2 ::
            (runLoop force rp
              (processPackage force rp (runLoop force rp s pre).1 p).1 post).2) ∧
    (runLoop force rp s (pre ++ p :: post)).2.length =
      pre.length + 1 + post.length ∧
    (∀ s' : RunState, (processPackage force rp s' p).2.errored = true ↔
      (p.parse = ParseResult.err ∨
        ∃ root, p.parse = ParseResult.ok root ∧
          reconcile s'.catalog root force ≠ Decision.Skip ∧
          (root.id = none ∨ (!(p.zipExists && !force) && p.zipRaises) = true ∨
            p.copyRaises = true))) := by
  refine ⟨?_, ?_, ?_⟩
  · rw [runLoop_append force rp pre (p :: post) s]
    simp [runLoop]
  · have hlen := runLoop_length force rp s (pre ++ p :: post)
    simp only [List.length_append, List.length_cons] at hlen
    omega
  · intro s'
    cases hp : p.parse with
    | err => simp [processPackage, hp]
    | ok root =>
      cases hrec : reconcile s'.catalog root force with
      | Skip => simp [processPackage, hp, hrec]
      | Insert =>
        cases hid : root.id with
        | none => simp [processPackage, hp, hrec, createZip, hid]
        | some i =>
          by_cases hze : (p.zipExists && !force) = true
          · by_cases hcr : p.copyRaises = true <;>
              simp [processPackage, hp, hrec, createZip, hid, hze, hcr]
          · by_cases hzr : p.zipRaises = true
            · simp [processPackage, hp, hrec, createZip, hid, hze, hzr]
            · by_cases hcr : p.copyRaises = true <;>
                simp [processPackage, hp, hrec, createZip, hid, hze, hzr, hcr]
      | Replace =>
        cases hid : root.id with
        | none => simp [processPackage, hp, hrec, createZip, hid]
        | some i =>
          by_cases hze : (p.zipExists && !force) = true
          · by_cases hcr : p.copyRaises = true <;>
              simp [processPackage, hp, hrec, createZip, hid, hze, hcr]
          · by_cases hzr : p.zipRaises = true
            · simp [processPackage, hp, hrec, createZip, hid, hze, hzr]
            · by_cases hcr : p.copyRaises = true <;>
                simp [processPackage, hp, hrec, createZip, hid, hze, hzr, hcr]

/-- C9 witness: a package whose manifest parse raises is reported as errored
(and, per the theorem's first conjunct instantiated at empty context, the
loop still processes the rest). -/
theorem package_errors_isolated_witness :
    (processPackage false ["r"] ⟨[], false⟩
      ⟨"bad", true, true, ParseResult.err, false, false, false, []⟩).2.errored =
      true :=
  ((package_errors_isolated false ["r"] ⟨[], false⟩ [] []
      ⟨"bad", true, true, ParseResult.err, false, false, false, []⟩).2.2
    ⟨[], false⟩).mpr (Or.inl rfl)

/-- C10: when `_create_zip` or `_copy_assets` raises for a package, that
package's manifest entry has already been appended to the in-memory catalog
and is not rolled back, while `changed` is left exactly as it was before the
package; consequently the entry survives into the final catalog (as long as
no later-processed manifest reconciles the same id) and is written to the
persisted catalog whenever the run persists at all, i.e. whenever some other
package marked the catalog dirty. -/
theorem failed_package_entry_persisted (force : Bool) (rp : List String)
    (init : List Entry) (pre post : List Package) (p : Package) (root : Entry)
    (hparse : p.parse = ParseResult.ok root)
    (hcand : isCandidate p = true)
    (herr : (processPackage force rp
      (runLoop force rp ⟨init, false⟩ (pre.filter isCandidate)).1 p).2.errored =
      true)
    (hpost : ∀ q ∈ post, ∀ qroot, q.parse = ParseResult.ok qroot →
      matchPred (reprOpt qroot.id) root = false) :
    root ∈ (generatorRun force rp init (pre ++ p :: post)).finalCatalog ∧
    (processPackage force rp
      (runLoop force rp ⟨init, false⟩ (pre.filter isCandidate)).1 p).1.changed =
      (runLoop force rp ⟨init, false⟩ (pre.filter isCandidate)).1.changed ∧
    (∀ l, (generatorRun force rp init (pre ++ p :: post)).persisted = some l →
      root ∈ l) := by
  have hfilter : (pre ++ p :: post).filter isCandidate =
      pre.filter isCandidate ++ p :: post.filter isCandidate := by
    rw [List.filter_append, List.filter_cons_of_pos hcand]
  have hd : reconcile
      (runLoop force rp ⟨init, false⟩ (pre.filter isCandidate)).1.catalog root
      force ≠ Decision.Skip := by
    intro hsk
    rw [processPackage_skip force rp _ p root hparse hsk] at herr
    simp at herr
  have hcat := processPackage_update_catalog force rp
    (runLoop force rp ⟨init, false⟩ (pre.filter isCandidate)).1 p root hparse hd
  have hmem : root ∈ (processPackage force rp
      (runLoop force rp ⟨init, false⟩ (pre.filter isCandidate)).1 p).1.catalog := by
    rw [hcat]
    exact List.mem_append_right _ (List.mem_singleton.mpr rfl)
  have hfinal : (runLoop force rp ⟨init, false⟩
      ((pre ++ p :: post).filter isCandidate)).1 =
      (runLoop force rp (processPackage force rp
        (runLoop force rp ⟨init, false⟩ (pre.filter isCandidate)).1 p).1
        (post.filter isCandidate)).1 := by
    rw [hfilter, runLoop_append]
    simp [runLoop]
  have hmemFinal : root ∈ (runLoop force rp ⟨init, false⟩
      ((pre ++ p :: post).filter isCandidate)).1.catalog := by
    rw [hfinal]
    exact mem_catalog_runLoop force rp _ (post.filter isCandidate) root hmem
      (fun q hq => hpost q (List.mem_of_mem_filter hq))
  refine ⟨?_, ?_, ?_⟩
  · rw [generatorRun_finalCatalog]
    exact hmemFinal
  · exact processPackage_errored_changed force rp _ p herr
  · intro l hl
    have := generatorRun_persisted_some force rp init (pre ++ p :: post) l hl
    subst this
    exact (List.perm_insertionSort addonLe _).mem_iff.mpr hmemFinal

/-- C10 witness: an id-less package raising inside `_create_zip` still has
its entry in the final catalog of a run where a later package inserts. -/
theorem failed_package_entry_persisted_witness :
    (⟨"addon", none, some "1"⟩ : Entry) ∈
      (generatorRun false ["r"] []
        [⟨"nf", true, true, ParseResult.ok ⟨"addon", none, some "1"⟩,
          false, false, false, []⟩,
          ⟨"b", true, true, ParseResult.ok ⟨"addon", some "b", some "1"⟩,
            false, false, false, []⟩]).finalCatalog :=
  (failed_package_entry_persisted false ["r"] [] []
    [⟨"b", true, true, ParseResult.ok ⟨"addon", some "b", some "1"⟩,
      false, false, false, []⟩]
    ⟨"nf", true, true, ParseResult.ok ⟨"addon", none, some "1"⟩,
      false, false, false, []⟩
    ⟨"addon", none, some "1"⟩ rfl (by decide) (by decide)
    (by
      intro q hq qroot hq'
      rcases List.mem_singleton.mp hq with rfl
      cases hq'
      decide)).1

end KodiRepo
